import Mathlib

/-!
Verification of the fieldset resolution and marshalling engine of
`flask_restful_fieldsets` (files `fieldset.py` and `fields.py`).

The embedding is shallow: Python values are modelled by `Val`, flask-restful
field objects by `Fld`, a fieldset instance (its created fields plus its
resolved `Meta`) by `Fset`, and the Python `dict` of fields (both a schema's
field dict and the plan returned by `Fieldset.marshall_dict`) by the
association list `FList`.  Python `set` arguments are modelled as
`List String` consumed up to membership; where Python iterates a set in
arbitrary order the model iterates the field list in declaration order, a
determinisation that is invisible to the membership/lookup properties proved
below.  Python `None` stored where a field object is expected is `Fld.pynone`;
`None` as a data value is `Val.vnone`.
-/

mutual
/-- Python values as seen by the marshaller: `None`, ints, strings, objects
with named members (attribute access), and lists. -/
inductive Val where
  | vnone : Val
  | vint : Int → Val
  | vstr : String → Val
  | vobj : ValFields → Val
  | vlist : ValItems → Val
inductive ValFields where
  | nil : ValFields
  | cons : String → Val → ValFields → ValFields
inductive ValItems where
  | nil : ValItems
  | cons : Val → ValItems → ValItems
end

deriving instance DecidableEq for Val

/-- Resolved `Meta` configuration of a fieldset class (`DefaultMeta` has both
entries `None`). -/
structure Meta where
  default_fields : Option (List String)
  default_embedd : Option (List String)
deriving DecidableEq

mutual
/-- flask-restful field objects, covering the kinds the engine manipulates:
`fields.Raw` (pass-through format), `fields.String` (`str()` format),
`ObjectMemberField`, `OptionalNestedField`, `fields.Nested` (as produced by
`marshall_dict`), `fields.List`, and Python `None` in a field position
(`pynone`).  `Fset` is a `Fieldset` instance: its field dict plus its meta
object; `FList` is the ordered field dict. -/
inductive Fld where
  | raw : Val → Option String → Fld
  | strF : Val → Option String → Fld
  | objectMember : String → Val → Option String → Fld → Fld
  | optionalNested : Fset → Option String → Val → Option String → Bool → Fld → Fld
  | nested : FList → Option String → Val → Bool → Fld
  | list : Fld → Fld
  | pynone : Fld
inductive Fset where
  | mk : FList → Option Meta → Fset
inductive FList where
  | fnil : FList
  | fcons : String → Fld → FList → FList
end

deriving instance DecidableEq for Fld

/-- Member lookup on a Python object value: `getattr`-style, `none` when the
member is absent (or the value is not an object). -/
def ValFields.lookupV : ValFields → String → Option Val
  | .nil, _ => none
  | .cons n v r, name => if n = name then some v else ValFields.lookupV r name

/-- `hasattr`/`getattr`: `some` member value when present. -/
def getAttrOpt : Val → String → Option Val
  | .vobj l, name => l.lookupV name
  | _, _ => none

/-- flask-restful `get_value(key, obj)`: the member value, or `None` when the
object lacks the member. -/
def getAttrVal (obj : Val) (name : String) : Val :=
  (getAttrOpt obj name).getD .vnone

/-- The keys of a field dict, in declaration order. -/
def FList.keys : FList → List String
  | .fnil => []
  | .fcons n _ r => n :: FList.keys r

/-- The entries of a field dict as a Lean list. -/
def FList.entries : FList → List (String × Fld)
  | .fnil => []
  | .fcons n f r => (n, f) :: FList.entries r

/-- Dict lookup (first match). -/
def FList.lookupF : FList → String → Option Fld
  | .fnil, _ => none
  | .fcons n f r, name => if n = name then some f else FList.lookupF r name

/-- `FieldsetBase._find_nested`: the names whose field carries the
`_optional_nested` marker, directly or as a `fields.List` container. -/
def FList.findNested : FList → List String
  | .fnil => []
  | .fcons n (.optionalNested _ _ _ _ _ _) r => n :: FList.findNested r
  | .fcons n (.list (.optionalNested _ _ _ _ _ _)) r => n :: FList.findNested r
  | .fcons _ _ r => FList.findNested r

/-- The nested fieldset reachable from a field declaration, mirroring the
`isinstance(..., fields.List)`/`container` dispatch in
`_find_nested_all`/`_find_fields_all`. -/
def Fld.nestedFsetOf : Fld → Option Fset
  | .optionalNested ns _ _ _ _ _ => some ns
  | .list (.optionalNested ns _ _ _ _ _) => some ns
  | _ => none

/-- `FieldsetBase._find_default_fields`: the configured `Meta.default_fields`,
falling back to all direct field names when absent. -/
def findDefaultFields (fl : FList) (meta : Option Meta) : List String :=
  match meta with
  | none => fl.keys
  | some m =>
    match m.default_fields with
    | none => fl.keys
    | some l => l

/-- `FieldsetBase._find_default_embedd`: the configured `Meta.default_embedd`,
falling back to the direct nested field names when absent. -/
def findDefaultEmbedd (fl : FList) (meta : Option Meta) : List String :=
  match meta with
  | none => fl.findNested
  | some m =>
    match m.default_embedd with
    | none => fl.findNested
    | some l => l

mutual
/-- `FieldsetBase._find_fields_all` (the `all_field_names` data): all direct
keys, then for every nested field the dotted paths into its nested
fieldset's `all_field_names`. -/
def Fset.allFieldNamesF : Fset → List String
  | .mk fl _ => fl.keys ++ FList.dottedAllFields fl
def FList.dottedAllFields : FList → List String
  | .fnil => []
  | .fcons n (.optionalNested ns _ _ _ _ _) r =>
    (Fset.allFieldNamesF ns).map (fun p => n ++ "." ++ p) ++ FList.dottedAllFields r
  | .fcons n (.list (.optionalNested ns _ _ _ _ _)) r =>
    (Fset.allFieldNamesF ns).map (fun p => n ++ "." ++ p) ++ FList.dottedAllFields r
  | .fcons _ _ r => FList.dottedAllFields r
end

mutual
/-- `FieldsetBase._find_nested_all` (the `nested_field_names` data): every
nested name followed by the dotted paths into its nested fieldset's
`nested_field_names`. -/
def Fset.nestedFieldNamesF : Fset → List String
  | .mk fl _ => FList.nestedAllNames fl
def FList.nestedAllNames : FList → List String
  | .fnil => []
  | .fcons n (.optionalNested ns _ _ _ _ _) r =>
    n :: ((Fset.nestedFieldNamesF ns).map (fun p => n ++ "." ++ p) ++ FList.nestedAllNames r)
  | .fcons n (.list (.optionalNested ns _ _ _ _ _)) r =>
    n :: ((Fset.nestedFieldNamesF ns).map (fun p => n ++ "." ++ p) ++ FList.nestedAllNames r)
  | .fcons _ _ r => FList.nestedAllNames r
end

/-- Splitting a character list at every occurrence of the separator, the
semantics of Python `str.split(sep)` for a one-character separator
(the empty input yields one empty piece, as in Python). -/
def splitListChar (c : Char) : List Char → List (List Char)
  | [] => [[]]
  | x :: xs =>
    let r := splitListChar c xs
    if x = c then [] :: r
    else
      match r with
      | [] => [[x]]
      | y :: ys => (x :: y) :: ys

/-- Python `value.split(",")`. -/
def splitCommaPy (s : String) : List String :=
  (splitListChar ',' s.toList).map (fun l => String.mk l)

/-- Breaking a character list at its first dot: `none` when there is no dot. -/
def breakAtDot : List Char → Option (List Char × List Char)
  | [] => none
  | c :: cs =>
    if c = '.' then some ([], cs)
    else (breakAtDot cs).map (fun p => (c :: p.1, p.2))

/-- Python `s.split(".", 1)`: `none` when the string has no dot, otherwise the
part before the first dot and the remainder (later dots kept). -/
def splitFirstDot (s : String) : Option (String × String) :=
  (breakAtDot s.toList).map (fun p => (String.mk p.1, String.mk p.2))

/-- Python `sep.join(pieces)`. -/
def joinSep (sep : String) : List String → String
  | [] => ""
  | [x] => x
  | x :: xs => x ++ sep ++ joinSep sep xs

/-- Python set intersection `a.intersection(b)` on list-modelled sets. -/
def listInterPy (a b : List String) : List String :=
  a.filter (fun x => x ∈ b)

/-- Python set difference `a - b` on list-modelled sets. -/
def listDiffPy (a b : List String) : List String :=
  a.filter (fun x => x ∉ b)

/-- The per-field override set `filtered_nested[field]` / `filtered_embedd[field]`
accumulated in `Fieldset.marshall_dict`: the remainders of the dotted
selections whose first segment is `field`. -/
def childPaths (sel : List String) (field : String) : List String :=
  sel.filterMap (fun s =>
    match splitFirstDot s with
    | some (f, c) => if f = field then some c else none
    | none => none)

/-- `OptionalNestedField.key_field`: `None` when no plain key is configured,
otherwise an `ObjectMemberField(plain_key, default, attribute, plain_field)`.
On any other field object Python would raise `AttributeError`
(`fields.List` defines no `key_field`); the model returns `pynone` there,
a branch `marshall_dict` only reaches for an un-embedded list-of-nested. -/
def Fld.keyField : Fld → Fld
  | .optionalNested _ pk d a _ pf =>
    match pk with
    | none => .pynone
    | some k => .objectMember k d a pf
  | _ => .pynone

mutual
/-- `Fieldset.marshall_dict`: substitutes defaults for empty/absent
selections, partitions into direct fields, direct embeds and dotted
overrides, and builds the render plan. -/
def Fset.marshallDict : Fset → Option (List String) → Option (List String) → FList
  | .mk fl meta, selectedFields, selectedEmbed =>
    let sfv :=
      match selectedFields with
      | none => findDefaultFields fl meta
      | some l => if l.isEmpty then findDefaultFields fl meta else l
    let sev :=
      match selectedEmbed with
      | none => findDefaultEmbedd fl meta
      | some l => if l.isEmpty then findDefaultEmbedd fl meta else l
    let fieldsDirect := listInterPy sfv fl.keys
    let embedDirect := listInterPy sev fieldsDirect
    let filteredNested := listDiffPy sfv fieldsDirect
    let filteredEmbedd := listDiffPy sev embedDirect
    FList.marshallFields fl fieldsDirect embedDirect filteredNested filteredEmbedd

/-- The `for field in fields_direct` loop of `marshall_dict`, iterating the
field dict in declaration order (the Python set iteration order is
arbitrary; the resulting dict is the same mapping). -/
def FList.marshallFields : FList → List String → List String → List String → List String → FList
  | .fnil, _, _, _, _ => .fnil
  | .fcons name fld rest, fd, ed, fn, fe =>
    if name ∈ fd then
      .fcons name (Fld.marshallEntry name fld ed fn fe) (FList.marshallFields rest fd ed fn fe)
    else
      FList.marshallFields rest fd ed fn fe

/-- One plan entry: nested fields are embedded (recursing with the dotted
overrides) or reduced to their reference key; plain fields pass through. -/
def Fld.marshallEntry (name : String) (fld : Fld) (ed fn fe : List String) : Fld :=
  match fld with
  | .optionalNested ns pk d a an pf =>
    if name ∈ ed then
      .nested (Fset.marshallDict ns (some (childPaths fn name)) (some (childPaths fe name))) a d an
    else
      Fld.keyField (.optionalNested ns pk d a an pf)
  | .list (.optionalNested ns pk d a an pf) =>
    if name ∈ ed then
      .list (.nested (Fset.marshallDict ns (some (childPaths fn name)) (some (childPaths fe name))) a d an)
    else
      Fld.keyField (.list (.optionalNested ns pk d a an pf))
  | f => f
end

/-- `FieldSetParser.__call__` on a string argument: empty string parses to
`None` (no selection), otherwise the comma-split token set is validated
against the vocabulary; unknown tokens raise
`ValueError("Unknown fields: ...")` with the offenders sorted. -/
def fieldSetParserCall (possible : List String) (value : String) : Except String (Option (List String)) :=
  if value.length = 0 then
    .ok none
  else
    let elements := (splitCommaPy value).dedup
    let unknown := elements.filter (fun t => t ∉ possible)
    if unknown.isEmpty then
      .ok (some elements)
    else
      .error ("Unknown fields: " ++ joinSep ", " (unknown.insertionSort (fun a b => a ≤ b)))

/-- Modelled from the spec: the scalar string codec (`fields.String.format`,
`str(value)`), part of the excluded generic value-formatting primitives
(spec section 1); only its behaviour on scalars is needed here. -/
def pyStr : Val → Val
  | .vint n => .vstr (toString n)
  | .vstr s => .vstr s
  | v => v

/-- Mapping a function over the items of a Python list value. -/
def ValItems.mapF (g : Val → Val) : ValItems → ValItems
  | .nil => .nil
  | .cons v r => .cons (g v) (ValItems.mapF g r)

mutual
/-- `format` of the modelled field kinds: `Raw.format` is the identity,
`fields.String.format` is `str`, and `ObjectMemberField.format`
(fields.py lines 62-69) reads the member, chains the optional
`member_field`, and yields `None` when the member is absent. -/
def Fld.format : Fld → Val → Val
  | .raw _ _, v => v
  | .strF _ _, v => pyStr v
  | .objectMember m _ _ mf, v =>
    match getAttrOpt v m with
    | some attr =>
      match mf with
      | .pynone => attr
      | f => Fld.format f attr
    | none => .vnone
  | .optionalNested _ _ _ _ _ _, v => v
  | .nested _ _ _ _, v => v
  | .list _, v => v
  | .pynone, v => v

/-- Modelled from the spec: the consumed "apply plan to object" primitive
(spec section 6, flask-restful `field.output(key, obj)`): resolve the
attribute (the configured override or the output key), fall back to the
field default when the value is `None`, otherwise format it; `Nested`
recurses into its sub-plan, honouring `allow_null`/`default`; `List` maps
its container over the items. -/
def Fld.output (key : String) (f : Fld) (obj : Val) : Val :=
  match f with
  | .nested plan attr d allowNull =>
    match getAttrVal obj (attr.getD key) with
    | .vnone =>
      if allowNull then .vnone
      else if d ≠ .vnone then d
      else .vobj (marshalFields plan .vnone)
    | v => .vobj (marshalFields plan v)
  | .list c =>
    match getAttrVal obj key with
    | .vlist items => .vlist (ValItems.mapF (Fld.contOut c) items)
    | _ => .vnone
  | .raw d a =>
    match getAttrVal obj (a.getD key) with
    | .vnone => d
    | v => Fld.format (.raw d a) v
  | .strF d a =>
    match getAttrVal obj (a.getD key) with
    | .vnone => d
    | v => Fld.format (.strF d a) v
  | .objectMember m d a mf =>
    match getAttrVal obj (a.getD key) with
    | .vnone => d
    | v => Fld.format (.objectMember m d a mf) v
  | .optionalNested ns pk d a an pf =>
    match getAttrVal obj (a.getD key) with
    | .vnone => d
    | v => Fld.format (.optionalNested ns pk d a an pf) v
  | .pynone => .vnone

/-- One marshalled item of a `fields.List` plan entry: a `Nested` container
marshals the item with its sub-plan, any other container formats it. -/
def Fld.contOut : Fld → Val → Val
  | .nested plan _ _ _, it => .vobj (marshalFields plan it)
  | f, it => Fld.format f it

/-- Modelled from the spec: flask-restful `marshal(data, fields_dict)` — one
output entry per plan entry, in plan order. -/
def marshalFields : FList → Val → ValFields
  | .fnil, _ => .nil
  | .fcons name f rest, obj => .cons name (Fld.output name f obj) (marshalFields rest obj)
end

/-- `marshal` wrapped as an object value. -/
def marshalF (fl : FList) (obj : Val) : Val :=
  .vobj (marshalFields fl obj)

/-- The fieldset of the claims' running example: nested schema
`{id, email}` (fields are discovered via `dir()`, hence in sorted name
order), default `Meta`. -/
def nestedDemoFL : FList :=
  .fcons "email" (.strF .vnone none) (.fcons "id" (.raw .vnone none) .fnil)

def nestedDemoFset : Fset :=
  .mk nestedDemoFL (some ⟨none, none⟩)

/-- The `owner` declaration: `OptionalNestedField(nested_schema, "id")`. -/
def ownerFld : Fld :=
  .optionalNested nestedDemoFset (some "id") .vnone none false .pynone

/-- The parent schema `{id, name, owner}` with default `Meta`. -/
def demoFL : FList :=
  .fcons "id" (.raw .vnone none) (.fcons "name" (.strF .vnone none) (.fcons "owner" ownerFld .fnil))

def demoFset : Fset :=
  .mk demoFL (some ⟨none, none⟩)

/-- The same parent schema with `Meta.default_embedd = []` (an explicitly
empty embed default). -/
def demoFsetNoEmbed : Fset :=
  .mk demoFL (some ⟨none, some []⟩)

/-- The object `{id:1, name:"Bob", owner:{id:9, email:"a@b.c"}}`. -/
def demoObj : Val :=
  .vobj (.cons "id" (.vint 1) (.cons "name" (.vstr "Bob")
    (.cons "owner" (.vobj (.cons "id" (.vint 9) (.cons "email" (.vstr "a@b.c") .nil))) .nil)))

/-- The field dict of a fieldset instance. -/
def Fset.fieldListOf : Fset → FList
  | .mk fl _ => fl

/-- The direct field names of a fieldset instance (`self._fields.keys()`). -/
def Fset.keysOf (s : Fset) : List String :=
  s.fieldListOf.keys

/-- `self._default_fields` of a fieldset instance. -/
def Fset.defaultFieldsOf : Fset → List String
  | .mk fl m => findDefaultFields fl m

/-- `self._default_embedd` of a fieldset instance. -/
def Fset.defaultEmbeddOf : Fset → List String
  | .mk fl m => findDefaultEmbedd fl m

/-- The offending tokens of a selection, deduplicated and sorted, as they are
reported by `FieldSetParser.__call__`. -/
def sortedUnknown (possible : List String) (value : String) : List String :=
  (((splitCommaPy value).dedup).filter (fun t => t ∉ possible)).insertionSort (fun a b => a ≤ b)

/-- The `owner` sub-object `{id:9, email:"a@b.c"}` of the running example. -/
def ownerObj : Val :=
  .vobj (.cons "id" (.vint 9) (.cons "email" (.vstr "a@b.c") .nil))

/-- C1 counterexample: for the schema `{id, name, owner}` (owner nested over
`{id, email}` with plain key `id`), the request selection
`fields=name,owner.email`, `embedd=owner` parses successfully, but
marshalling `{id:1, name:"Bob", owner:{id:9, email:"a@b.c"}}` produces
`{name:"Bob"}` only: `owner` is absent from the output (it is not in the
selected field set, so `marshall_dict` never renders it), contradicting the
claimed output `{name:"Bob", owner:{email:"a@b.c"}}`. -/
theorem c1_counterexample :
    fieldSetParserCall (Fset.allFieldNamesF demoFset) "name,owner.email" =
      .ok (some ["name", "owner.email"]) ∧
    marshalF (Fset.marshallDict demoFset (some ["name", "owner.email"]) (some ["owner"])) demoObj =
      .vobj (.cons "name" (.vstr "Bob") .nil) ∧
    ValFields.lookupV
      (marshalFields (Fset.marshallDict demoFset (some ["name", "owner.email"]) (some ["owner"]))
        demoObj) "owner" = none :=
  ⟨rfl, rfl, rfl⟩

/-- C1 amended: the claimed output obtains once `owner` itself is also
selected: under `fields=name,owner,owner.email` and `embedd=owner` (both of
which parse against the schema's vocabularies), marshalling the object
produces exactly `{name:"Bob", owner:{email:"a@b.c"}}`. -/
theorem c1_endToEnd :
    fieldSetParserCall (Fset.allFieldNamesF demoFset) "name,owner,owner.email" =
      .ok (some ["name", "owner", "owner.email"]) ∧
    fieldSetParserCall (Fset.nestedFieldNamesF demoFset) "owner" = .ok (some ["owner"]) ∧
    marshalF (Fset.marshallDict demoFset (some ["name", "owner", "owner.email"]) (some ["owner"]))
        demoObj =
      .vobj (.cons "name" (.vstr "Bob")
        (.cons "owner" (.vobj (.cons "email" (.vstr "a@b.c") .nil)) .nil)) :=
  ⟨rfl, rfl, rfl⟩

/-- C2 counterexample: with `selectedFields={"owner"}` and `selectedEmbed={}`,
the empty embed selection is replaced by the schema's default embed set
(which contains `owner`), so the plan renders `owner` as an embedded
nested object over the nested schema's default fields `{email, id}` — not
as the reference-key adapter `key_field()` the claim states. -/
theorem c2_counterexample :
    FList.lookupF (Fset.marshallDict demoFset (some ["owner"]) (some [])) "owner" =
      some (.nested (.fcons "email" (.strF .vnone none) (.fcons "id" (.raw .vnone none) .fnil))
        none .vnone false) ∧
    FList.lookupF (Fset.marshallDict demoFset (some ["owner"]) (some [])) "owner" ≠
      some (Fld.keyField ownerFld) :=
  ⟨rfl, by decide⟩

/-- C2 amended: an empty `selectedEmbed` falls back to the schema's default
embed set, so the reference-key rendering needs that default to be empty
(`Meta.default_embedd = []`): then `owner` maps to the
`ObjectMemberField` extracting the plain key `id` (shown extracting
`owner.id = 9`); and with `selectedEmbed={"owner"}` the plan maps `owner`
to a nested-object rendering whose child plan defaults to the nested
schema's fields `{email, id}`. -/
theorem c2_render_plans :
    FList.lookupF (Fset.marshallDict demoFsetNoEmbed (some ["owner"]) (some [])) "owner" =
      some (.objectMember "id" .vnone none .pynone) ∧
    Fld.format (.objectMember "id" .vnone none .pynone) ownerObj = .vint 9 ∧
    FList.lookupF (Fset.marshallDict demoFset (some ["owner"]) (some ["owner"])) "owner" =
      some (.nested (.fcons "email" (.strF .vnone none) (.fcons "id" (.raw .vnone none) .fnil))
        none .vnone false) :=
  ⟨rfl, rfl, rfl⟩

/-- C3 counterexample: `ObjectMemberField.format` returns `None` when the
source object lacks the member, even when a non-null default is
configured: with default `42` and an object without member `x`, the
result is `None`, not `42` (the behaviour the repository's own test
`test_0020_no_attribute` pins down). -/
theorem c3_counterexample :
    Fld.format (.objectMember "x" (.vint 42) none .pynone) (.vobj .nil) = .vnone ∧
    Val.vnone ≠ Val.vint 42 :=
  ⟨rfl, by decide⟩

/-- C3 amended: `ObjectMemberField.format` reads the named member from the
source object; when the member is present and no sub-formatter is
configured it returns the raw member value; when a sub-formatter is
configured the member value is passed through it; when the object lacks
the member it returns `None` (null) rather than failing — the configured
default is not consulted by `format`. -/
theorem c3_objectMember_format (m : String) (d : Val) (a : Option String) (mf : Fld) (v : Val) :
    (getAttrOpt v m = none → Fld.format (.objectMember m d a mf) v = .vnone) ∧
    (∀ attr, getAttrOpt v m = some attr → mf = .pynone →
      Fld.format (.objectMember m d a mf) v = attr) ∧
    (∀ attr, getAttrOpt v m = some attr → mf ≠ .pynone →
      Fld.format (.objectMember m d a mf) v = Fld.format mf attr) := by
  refine ⟨fun h => ?_, fun attr h hmf => ?_, fun attr h hmf => ?_⟩
  · simp [Fld.format, h]
  · subst hmf; simp [Fld.format, h]
  · cases mf <;> simp_all [Fld.format]

/-- C3 witness: the member `test = 2` is extracted and, with a configured
`fields.String` sub-formatter, formatted to `"2"` (mirroring
`test_0030_member_field`). -/
theorem c3_objectMember_format_witness :
    getAttrOpt (.vobj (.cons "test" (.vint 2) .nil)) "test" = some (.vint 2) ∧
    Fld.format (.objectMember "test" .vnone none (.strF .vnone none))
      (.vobj (.cons "test" (.vint 2) .nil)) = .vstr "2" :=
  ⟨rfl,
    (c3_objectMember_format "test" .vnone none (.strF .vnone none)
      (.vobj (.cons "test" (.vint 2) .nil))).2.2 (.vint 2) rfl (by decide)⟩

/-- C4: parsing the empty selection string succeeds for every vocabulary,
returning the empty selection (Python `None`, which denotes that no path
is selected and makes the plan builder fall back to the defaults). -/
theorem c4_parse_empty (possible : List String) :
    fieldSetParserCall possible "" = .ok none ∧
    ∀ t : String, t ∉ (none : Option (List String)).getD [] := by
  exact ⟨rfl, by simp⟩

/-- C6: the resolved default field set is the configured
`Meta.default_fields` when one is configured (an empty configured list
stays empty), and falls back to all direct field names when the meta or
the entry is absent; likewise the default embed set resolves to
`Meta.default_embedd`, falling back to the (direct) nested field names. -/
theorem c6_default_resolution (fl : FList) (m : Meta) :
    findDefaultFields fl none = fl.keys ∧
    findDefaultFields fl (some m) = m.default_fields.getD fl.keys ∧
    findDefaultEmbedd fl none = fl.findNested ∧
    findDefaultEmbedd fl (some m) = m.default_embedd.getD fl.findNested := by
  refine ⟨rfl, ?_, rfl, ?_⟩
  · cases h : m.default_fields <;> simp [findDefaultFields, h]
  · cases h : m.default_embedd <;> simp [findDefaultEmbedd, h]

/-- C5: a non-empty selection string is split on commas into a set of tokens;
if every token is in the vocabulary the parser returns exactly that token
set (duplicates collapsed, membership the only observable), and otherwise
it raises `Unknown fields: ...` carrying precisely the unknown tokens,
sorted. -/
theorem c5_parse_nonempty (possible : List String) (value : String) (hlen : value.length ≠ 0) :
    ((∀ t ∈ splitCommaPy value, t ∈ possible) →
      ∃ r, fieldSetParserCall possible value = .ok (some r) ∧
        ∀ t, t ∈ r ↔ t ∈ splitCommaPy value) ∧
    ((∃ t ∈ splitCommaPy value, t ∉ possible) →
      List.Sorted (fun a b => a ≤ b) (sortedUnknown possible value) ∧
      (∀ t, t ∈ sortedUnknown possible value ↔ t ∈ splitCommaPy value ∧ t ∉ possible) ∧
      fieldSetParserCall possible value =
        .error ("Unknown fields: " ++ joinSep ", " (sortedUnknown possible value))) := by
  constructor
  · intro hall
    refine ⟨(splitCommaPy value).dedup, ?_, fun t => List.mem_dedup⟩
    have hunk : ((splitCommaPy value).dedup.filter (fun t => t ∉ possible)) = [] := by
      refine List.filter_eq_nil_iff.mpr fun a ha => ?_
      simp [hall a (List.mem_dedup.mp ha)]
    simp [fieldSetParserCall, hlen, hunk]
    exact fun x hx => hall x hx
  · rintro ⟨t, ht, htp⟩
    have htu : t ∈ (splitCommaPy value).dedup.filter (fun t => t ∉ possible) := by
      simp [List.mem_filter, List.mem_dedup, ht, htp]
    have hunk : ((splitCommaPy value).dedup.filter (fun t => t ∉ possible)).isEmpty = false := by
      rcases h : ((splitCommaPy value).dedup.filter (fun t => t ∉ possible)) with _ | _
      · rw [h] at htu; cases htu
      · rfl
    refine ⟨List.sorted_insertionSort _ _, fun x => ?_, ?_⟩
    · rw [sortedUnknown, (List.perm_insertionSort _ _).mem_iff, List.mem_filter,
        List.mem_dedup, decide_eq_true_eq]
    · simp [fieldSetParserCall, hlen, hunk, sortedUnknown]
      exact ⟨t, ht, htp⟩

/-- C5 witness: parsing `"a,z"` against `{a, b}` fails, reporting exactly the
unknown token `z`. -/
theorem c5_parse_nonempty_witness :
    ("a,z".length ≠ 0) ∧ fieldSetParserCall ["a", "b"] "a,z" = .error "Unknown fields: z" :=
  ⟨by decide,
    ((c5_parse_nonempty ["a", "b"] "a,z" (by decide)).2 ⟨"z", by decide, by decide⟩).2.2⟩

/-- C7: building a plan with empty or absent selections equals building it
with the schema's resolved default field and embed sets passed
explicitly (an empty default set re-triggers the fallback, to itself). -/
theorem c7_default_fallback (s : Fset) (sf se : Option (List String))
    (hsf : sf = none ∨ sf = some []) (hse : se = none ∨ se = some []) :
    Fset.marshallDict s sf se =
      Fset.marshallDict s (some s.defaultFieldsOf) (some s.defaultEmbeddOf) := by
  obtain ⟨fl, m⟩ := s
  rcases hsf with h | h <;> rcases hse with h' | h' <;> subst h <;> subst h' <;>
    simp [Fset.marshallDict, Fset.defaultFieldsOf, Fset.defaultEmbeddOf, ite_self]

/-- C7 witness: the defaults substitution at the running example. -/
theorem c7_default_fallback_witness :
    Fset.marshallDict demoFset none none =
      Fset.marshallDict demoFset (some demoFset.defaultFieldsOf)
        (some demoFset.defaultEmbeddOf) :=
  c7_default_fallback demoFset none none (Or.inl rfl) (Or.inl rfl)

/-- Helper for C8: a nested entry of the field dict contributes the dotted
versions of all its nested fieldset's paths. -/
theorem mem_dottedAllFields (n : String) (f0 : Fld) (ns : Fset) (p : String) :
    ∀ fl : FList, (n, f0) ∈ FList.entries fl → Fld.nestedFsetOf f0 = some ns →
      p ∈ Fset.allFieldNamesF ns → (n ++ "." ++ p) ∈ FList.dottedAllFields fl
  | .fnil, h, _, _ => absurd h (by simp [FList.entries])
  | .fcons n' f' r, h, hns, hp => by
    have h' : (n = n' ∧ f0 = f') ∨ (n, f0) ∈ FList.entries r := by
      simpa [FList.entries, Prod.ext_iff] using h
    rcases h' with ⟨h1, h2⟩ | h3
    · subst h1; subst h2
      cases f0 with
      | optionalNested ns' pk d a an pf =>
        have : ns' = ns := by simpa [Fld.nestedFsetOf] using hns
        subst this
        simp only [FList.dottedAllFields, List.mem_append]
        exact Or.inl (List.mem_map.mpr ⟨p, hp, rfl⟩)
      | list c =>
        cases c with
        | optionalNested ns' pk d a an pf =>
          have : ns' = ns := by simpa [Fld.nestedFsetOf] using hns
          subst this
          simp only [FList.dottedAllFields, List.mem_append]
          exact Or.inl (List.mem_map.mpr ⟨p, hp, rfl⟩)
        | raw d a => simp [Fld.nestedFsetOf] at hns
        | strF d a => simp [Fld.nestedFsetOf] at hns
        | objectMember m d a mf => simp [Fld.nestedFsetOf] at hns
        | nested pl a d an => simp [Fld.nestedFsetOf] at hns
        | list c' => simp [Fld.nestedFsetOf] at hns
        | pynone => simp [Fld.nestedFsetOf] at hns
      | raw d a => simp [Fld.nestedFsetOf] at hns
      | strF d a => simp [Fld.nestedFsetOf] at hns
      | objectMember m d a mf => simp [Fld.nestedFsetOf] at hns
      | nested pl a d an => simp [Fld.nestedFsetOf] at hns
      | pynone => simp [Fld.nestedFsetOf] at hns
    · have hr := mem_dottedAllFields n f0 ns p r h3 hns hp
      cases f' with
      | optionalNested ns' pk d a an pf =>
        simp only [FList.dottedAllFields, List.mem_append]; exact Or.inr hr
      | list c =>
        cases c <;> simp only [FList.dottedAllFields, List.mem_append] <;> first
          | exact Or.inr hr
          | exact hr
      | raw d a => simpa [FList.dottedAllFields] using hr
      | strF d a => simpa [FList.dottedAllFields] using hr
      | objectMember m d a mf => simpa [FList.dottedAllFields] using hr
      | nested pl a d an => simpa [FList.dottedAllFields] using hr
      | pynone => simpa [FList.dottedAllFields] using hr

/-- C8: `all_field_names` contains every direct field name, and for every
nested entry `n` with nested fieldset `ns`, the dotted path `n.p` for
every path `p` of `ns`'s `all_field_names`. -/
theorem c8_path_closure (s : Fset) :
    (∀ k ∈ Fset.keysOf s, k ∈ Fset.allFieldNamesF s) ∧
    (∀ n f, (n, f) ∈ FList.entries s.fieldListOf → ∀ ns, Fld.nestedFsetOf f = some ns →
      ∀ p ∈ Fset.allFieldNamesF ns, (n ++ "." ++ p) ∈ Fset.allFieldNamesF s) := by
  obtain ⟨fl, m⟩ := s
  constructor
  · intro k hk
    simp only [Fset.allFieldNamesF, List.mem_append]
    exact Or.inl (by simpa [Fset.keysOf, Fset.fieldListOf] using hk)
  · intro n f hmem ns hns p hp
    simp only [Fset.allFieldNamesF, List.mem_append]
    exact Or.inr (mem_dottedAllFields n f ns p fl (by simpa [Fset.fieldListOf] using hmem) hns hp)

/-- C8 witness: at the running example, the direct key `id` and the dotted
path `owner.email` are both addressable paths. -/
theorem c8_path_closure_witness :
    "id" ∈ Fset.allFieldNamesF demoFset ∧
    ("owner" ++ "." ++ "email") ∈ Fset.allFieldNamesF demoFset :=
  ⟨(c8_path_closure demoFset).1 "id" (by decide),
    (c8_path_closure demoFset).2 "owner" ownerFld (by decide) nestedDemoFset rfl "email"
      (by decide)⟩

/-- Helper for C9: the plan built by the `marshall_dict` loop has entries only
for names in `fields_direct`. -/
theorem lookupF_marshallFields_not_mem (f : String) :
    ∀ (fl : FList) (fd ed fn fe : List String), f ∉ fd →
      FList.lookupF (FList.marshallFields fl fd ed fn fe) f = none
  | .fnil, _, _, _, _, _ => rfl
  | .fcons n fld r, fd, ed, fn, fe, hf => by
    by_cases hn : n ∈ fd
    · have hnf : ¬ n = f := fun h => hf (h ▸ hn)
      simp only [FList.marshallFields, if_pos hn, FList.lookupF, if_neg hnf]
      exact lookupF_marshallFields_not_mem f r fd ed fn fe hf
    · simp only [FList.marshallFields, if_neg hn]
      exact lookupF_marshallFields_not_mem f r fd ed fn fe hf

/-- C9: when a non-empty field selection contains a dotted path `f.c` but not
the parent name `f` itself, the built plan has no entry for `f` at all —
the dotted selection is silently dropped and no error is raised. -/
theorem c9_dotted_without_parent (s : Fset) (sf : List String) (se : Option (List String))
    (f c : String) (hne : sf ≠ []) (hdot : (f ++ "." ++ c) ∈ sf) (hf : f ∉ sf) :
    FList.lookupF (Fset.marshallDict s (some sf) se) f = none := by
  obtain ⟨fl, m⟩ := s
  have hemp : sf.isEmpty = false := by
    rcases sf with _ | _
    · exact absurd rfl hne
    · rfl
  have hfd : f ∉ listInterPy sf fl.keys := fun hmem => hf (List.mem_filter.mp hmem).1
  simp only [Fset.marshallDict, hemp, Bool.false_eq_true, if_false]
  exact lookupF_marshallFields_not_mem f fl _ _ _ _ hfd

/-- C9 witness: selecting `{name, owner.email}` without `owner` leaves no
`owner` entry in the plan. -/
theorem c9_dotted_without_parent_witness :
    (["name", "owner.email"] : List String) ≠ [] ∧
    ("owner" ++ "." ++ "email") ∈ (["name", "owner.email"] : List String) ∧
    "owner" ∉ (["name", "owner.email"] : List String) ∧
    FList.lookupF (Fset.marshallDict demoFset (some ["name", "owner.email"]) (some ["owner"]))
      "owner" = none :=
  ⟨by decide, by decide, by decide,
    c9_dotted_without_parent demoFset ["name", "owner.email"] (some ["owner"]) "owner" "email"
      (by decide) (by decide) (by decide)⟩

/-- C10 counterexample: the claim quantifies over every vocabulary containing
`"b"`; for the vocabulary `{a, b, " b"}` (which does contain `"b"`),
parsing `"a, b"` does not fail at all — the token `" b"` matches the
vocabulary entry `" b"` literally, so the claimed universal failure is
false. -/
theorem c10_counterexample :
    "b" ∈ (["a", "b", " b"] : List String) ∧
    fieldSetParserCall ["a", "b", " b"] "a, b" = .ok (some ["a", " b"]) :=
  ⟨by decide, rfl⟩

/-- C10 amended: tokens are matched literally, with no whitespace trimming:
for every vocabulary in which `"a"` and `"b"` are valid paths but the
space-led token `" b"` is not, parsing `"a, b"` fails reporting exactly
the token `" b"` (with its leading space) as unknown, even though `"b"`
is a valid path. -/
theorem c10_no_trimming (possible : List String) (ha : "a" ∈ possible) (hb : "b" ∈ possible)
    (hnb : " b" ∉ possible) :
    fieldSetParserCall possible "a, b" = .error "Unknown fields:  b" := by
  have hred : fieldSetParserCall possible "a, b" =
      (if ((["a", " b"] : List String).filter (fun t => t ∉ possible)).isEmpty then
        Except.ok (some ["a", " b"])
      else
        .error ("Unknown fields: " ++ joinSep ", "
          (((["a", " b"] : List String).filter (fun t => t ∉ possible)).insertionSort
            (fun a b => a ≤ b)))) := rfl
  have hfil : ((["a", " b"] : List String).filter (fun t => t ∉ possible)) = [" b"] := by
    simp [List.filter, ha, hnb]
  rw [hred, hfil]
  rfl

/-- C10 witness: the vocabulary `{a, b}` at the amended theorem. -/
theorem c10_no_trimming_witness :
    fieldSetParserCall ["a", "b"] "a, b" = .error "Unknown fields:  b" :=
  c10_no_trimming ["a", "b"] (by decide) (by decide) (by decide)
